import Mathlib

/-
Verification of the GGYL directory watcher (src/ggyl.c, src/ggyl.h) against
its natural-language specification.  The C sources are shallowly embedded:
strings are lists of characters, the inotify mask is a natural number with
the Linux bit values, arrays are total functions from slot index, and the
heap used by the generic tree container is a list of live block identifiers.
External collaborators (POSIX regcomp and regexec, readdir, select and read)
are modelled only on the fragment of their behaviour that the program
exercises, as documented at each definition.
-/

set_option maxHeartbeats 1000000

namespace GGYL

/-! ## PatternMatcher: glob translation and regex compilation

Models of glob_to_regex (src/ggyl.c lines 27-51), compile_patterns
(lines 55-89) and check_patterns (lines 92-108). -/

/-- Characters that are special in a POSIX extended regular expression:
quantifiers, grouping, bracket expressions, alternation, anchors and the
escape character.  Any other character in an ERE matches itself. -/
def ereSpecial (c : Char) : Bool :=
  c = '.' || c = '*' || c = '?' || c = '+' || c = '[' || c = ']' ||
  c = '(' || c = ')' || c = '\x7b' || c = '\x7d' || c = '|' || c = '^' ||
  c = '$' || c = '\\'

/-- Glob characters covered by claim C4: the glob wildcards star, question
mark and dot, and plain literal characters (characters that are not special
in an ERE, so that copying them verbatim into the regex keeps their literal
meaning). -/
def globSafe (c : Char) : Bool :=
  c = '*' || c = '?' || c = '.' || !ereSpecial c

/-- Body of the while loop of glob_to_regex (src/ggyl.c lines 30-48): star
becomes dot-star, question mark becomes dot, a literal dot is escaped with a
backslash, and every other character is copied verbatim. -/
def gtrBody : List Char → List Char
  | [] => []
  | c :: gs =>
    if c = '*' then '.' :: '*' :: gtrBody gs
    else if c = '?' then '.' :: gtrBody gs
    else if c = '.' then '\\' :: '.' :: gtrBody gs
    else c :: gtrBody gs

/-- glob_to_regex (src/ggyl.c lines 27-51): writes the start-of-line anchor,
the translated body, and the end-of-line anchor. -/
def glob_to_regex (g : List Char) : List Char :=
  '^' :: (gtrBody g ++ ['$'])

/-- Single-character atom of a compiled POSIX extended regular expression:
the dot (any character) or one character matched literally (a plain
character or a backslash-escaped one). -/
inductive RAtom where
  | any : RAtom
  | lit : Char → RAtom
deriving DecidableEq

/-- Atom with its postfix repetition: matched exactly once, or under one of
the three ERE repetition operators star (zero or more), plus (one or more)
and question mark (zero or one). -/
inductive RPiece where
  | once : RAtom → RPiece
  | star : RAtom → RPiece
  | plus : RAtom → RPiece
  | opt : RAtom → RPiece
deriving DecidableEq

/-- One alternative of a compiled ERE.  Alternation binds weakest, so in a
pattern caret-body-dollar each alternative carries its own anchoring: the
caret anchors only the first alternative and the dollar only the last. -/
structure RBranch where
  anchStart : Bool
  anchEnd : Bool
  pieces : List RPiece
deriving DecidableEq

/-- Whether an atom matches one character. -/
def atomMatch : RAtom → Char → Bool
  | .any, _ => true
  | .lit d, c => c == d

/-- Every way of cutting a list into a prefix and the matching suffix, in
order of growing prefix. -/
def splits : List Char → List (List Char × List Char)
  | [] => [([], [])]
  | c :: cs => ([], c :: cs) :: (splits cs).map (fun p => (c :: p.1, p.2))

/-- Full match of a piece sequence against a whole string: the POSIX
semantics of concatenation and the three repetition operators, each
repetition consuming a run of characters that the atom matches. -/
def piecesMatch : List RPiece → List Char → Bool
  | [], s => s.isEmpty
  | .once a :: ps, s =>
    (match s with
     | [] => false
     | c :: cs => atomMatch a c && piecesMatch ps cs)
  | .opt a :: ps, s =>
    piecesMatch ps s ||
      (match s with
       | [] => false
       | c :: cs => atomMatch a c && piecesMatch ps cs)
  | .star a :: ps, s =>
    (splits s).any fun p => p.1.all (atomMatch a) && piecesMatch ps p.2
  | .plus a :: ps, s =>
    (match s with
     | [] => false
     | c :: cs =>
       atomMatch a c &&
         ((splits cs).any fun p => p.1.all (atomMatch a) && piecesMatch ps p.2))

/-- Match of one alternative against a string under regexec search
semantics: an alternative anchored on both sides must match the whole
string; anchored only at the start, some prefix; only at the end, some
suffix; unanchored, some substring. -/
def branchMatches (b : RBranch) (s : List Char) : Bool :=
  if b.anchStart then
    (if b.anchEnd then piecesMatch b.pieces s
     else s.inits.any (piecesMatch b.pieces))
  else
    (if b.anchEnd then s.tails.any (piecesMatch b.pieces)
     else s.tails.any fun t => t.inits.any (piecesMatch b.pieces))

/-- Model of regexec on a compiled pattern: the pattern matches when some
alternative matches. -/
def regexecRun (branches : List RBranch) (s : List Char) : Bool :=
  branches.any fun b => branchMatches b s

/-- ERE constructs outside the modelled fragment: grouping parentheses,
bracket expressions, interval braces, and a caret past the pattern start.
regcomp genuinely fails on some patterns containing them (an unterminated
bracket expression, for example, which is how a stray bracket in a glob
really makes compile_patterns discard the pattern) and accepts others with
grouping or class semantics; the model maps them all to compile failure.
No claim depends on the difference: the covered fragment of claim C4
excludes these characters, and the invariant of claim C10 holds whichever
globs fail to compile. -/
def unmodeledERE (c : Char) : Bool :=
  c = '(' || c = ')' || c = '[' || c = ']' || c = '\x7b' || c = '\x7d' ||
  c = '^'

/-- Token of the ERE scanner: the end anchor, the alternation bar, the
three repetition operators, an atom, or an unmodelled construct. -/
inductive RTok where
  | dollar : RTok
  | bar : RTok
  | star : RTok
  | plus : RTok
  | quest : RTok
  | atom : RAtom → RTok
  | bad : RTok
deriving DecidableEq

/-- Classification of one unescaped character. -/
def tokChar (c : Char) : RTok :=
  if c = '$' then .dollar
  else if c = '|' then .bar
  else if c = '*' then .star
  else if c = '+' then .plus
  else if c = '?' then .quest
  else if c = '.' then .atom .any
  else if c = '\\' then .bad
  else if unmodeledERE c then .bad
  else .atom (.lit c)

/-- Scanner of the pattern body: a backslash makes the next character a
literal atom (a trailing backslash is invalid, as for regcomp); every other
character is classified on its own. -/
def tokenize : List Char → List RTok
  | [] => []
  | '\\' :: d :: rest => .atom (.lit d) :: tokenize rest
  | ['\\'] => [.bad]
  | c :: rest => tokChar c :: tokenize rest

/-- Prepend a piece to the first alternative of a parse result. -/
def consPiece (p : RPiece) : Option (List RBranch) → Option (List RBranch)
  | none => none
  | some [] => none
  | some (b :: bs) => some ({b with pieces := p :: b.pieces} :: bs)

/-- Parser of the token stream into alternatives.  The boolean says whether
the alternative being read is start-anchored (true for the first one, the
caret).  A repetition operator applies to the atom before it; the dollar is
accepted only as the last token (real regcomp treats a middle dollar as an
anchor, outside the modelled fragment); a repetition with no preceding atom
is invalid, as for regcomp. -/
def parseToks : Bool → List RTok → Option (List RBranch)
  | _, [] => none
  | a, [.dollar] => some [⟨a, true, []⟩]
  | _, .dollar :: _ :: _ => none
  | a, .bar :: ts => (parseToks false ts).map (fun bs => ⟨a, false, []⟩ :: bs)
  | a, .atom x :: .star :: ts => consPiece (.star x) (parseToks a ts)
  | a, .atom x :: .plus :: ts => consPiece (.plus x) (parseToks a ts)
  | a, .atom x :: .quest :: ts => consPiece (.opt x) (parseToks a ts)
  | a, .atom x :: ts => consPiece (.once x) (parseToks a ts)
  | _, .star :: _ => none
  | _, .plus :: _ => none
  | _, .quest :: _ => none
  | _, .bad :: _ => none

/-- Model of the regcomp call in compile_patterns (src/ggyl.c line 79) with
REG_EXTENDED: the pattern handed to it always begins with the caret written
by glob_to_regex, which start-anchors the first alternative; the body is
scanned and parsed into alternatives.  ERE metacharacters that a glob
contains are copied verbatim by glob_to_regex and take their regex meaning
here: a plus or question mark quantifies the preceding atom and a bar
separates alternatives, which is exactly how the compiled pattern diverges
from the shell glob on such inputs (claim C4). -/
def regcompModel : List Char → Option (List RBranch)
  | '^' :: rest => parseToks true (tokenize rest)
  | _ => none

/-- Shell glob matching, the specification-side definition (spec sections
4.1 and 8): star matches any run of characters, question mark matches any
one character, every other character matches itself, and the whole pattern
is anchored to the full filename. -/
def globMatch : List Char → List Char → Bool
  | [], s => s.isEmpty
  | c :: ps, s =>
    if c = '*' then s.tails.any fun t => globMatch ps t
    else if c = '?' then (match s with | [] => false | _ :: cs => globMatch ps cs)
    else match s with | [] => false | d :: cs => d == c && globMatch ps cs

/-- Token stream that scanning the translation of a covered glob yields,
stated directly by recursion on the glob; a bridge in the equivalence
proof. -/
def toksOf : List Char → List RTok
  | [] => []
  | c :: gs =>
    if c = '*' then .atom .any :: .star :: toksOf gs
    else if c = '?' then .atom .any :: toksOf gs
    else if c = '.' then .atom (.lit '.') :: toksOf gs
    else .atom (.lit c) :: toksOf gs

/-- Piece sequence that compiling the translation of a covered glob
yields, stated directly by recursion on the glob; a bridge in the
equivalence proof. -/
def piecesOf : List Char → List RPiece
  | [] => []
  | c :: gs =>
    if c = '*' then .star .any :: piecesOf gs
    else if c = '?' then .once .any :: piecesOf gs
    else if c = '.' then .once (.lit '.') :: piecesOf gs
    else .once (.lit c) :: piecesOf gs

/-! ## Pattern set state -/

/-- One slot of the regex_entries array (regex_entry in src/ggyl.h): the
compiled flag and the compiled program (none models the freed or absent
regex_t). -/
structure RegexEntry where
  compiled : Bool
  prog : Option (List RBranch)
deriving DecidableEq

/-- Pattern state of monitor_t (src/ggyl.h lines 89-97): the regex_entries
array modelled as a total function from slot index (the C array holds
MAX_REGEX pointers; slots at or beyond num_patterns may hold garbage and
are never consulted), plus num_patterns. -/
structure MonitorP where
  regex_entries : Nat → RegexEntry
  num_patterns : Nat

/-- Hard cap on the number of patterns (src/ggyl.h line 81). -/
def MAX_REGEX : Nat := 128

/-- compile_patterns (src/ggyl.c lines 55-89): rejects the glob when the cap
is reached; otherwise converts the glob and compiles the result.  On
compile failure the slot at index num_patterns is marked not compiled and
the entry is discarded without incrementing num_patterns; on success the
program is stored in that slot, marked compiled, and num_patterns is
incremented. -/
def compile_patterns (m : MonitorP) (glob : List Char) : MonitorP :=
  if MAX_REGEX ≤ m.num_patterns then m
  else
    match regcompModel (glob_to_regex glob) with
    | none =>
      { m with regex_entries := fun j =>
          if j = m.num_patterns then ⟨false, none⟩ else m.regex_entries j }
    | some p =>
      { regex_entries := fun j =>
          if j = m.num_patterns then ⟨true, some p⟩ else m.regex_entries j,
        num_patterns := m.num_patterns + 1 }

/-- Test performed on entry i inside the loop of check_patterns: the entry
must be marked compiled and its regex must match the filename. -/
def entryMatches (m : MonitorP) (f : List Char) (i : Nat) : Bool :=
  (m.regex_entries i).compiled &&
    (match (m.regex_entries i).prog with
     | some re => regexecRun re f
     | none => false)

/-- For loop of check_patterns (src/ggyl.c lines 93-100), iterating from
index i while i is below num_patterns and returning true at the first
compiled entry whose regex matches; the fuel argument bounds the iteration
count and equals the number of remaining slots. -/
def checkLoop (m : MonitorP) (f : List Char) : Nat → Nat → Bool
  | 0, _ => false
  | fuel + 1, i =>
    if i < m.num_patterns then
      (entryMatches m f i || checkLoop m f fuel (i + 1))
    else false

/-- check_patterns (src/ggyl.c lines 92-108): the loop over the stored
entries, then the match-everything rule for an empty pattern set. -/
def check_patterns (m : MonitorP) (f : List Char) : Bool :=
  checkLoop m f m.num_patterns 0 || m.num_patterns == 0

/-- Invariant of claim C10: every slot below num_patterns is marked
compiled and holds a program. -/
def patInvariant (m : MonitorP) : Prop :=
  ∀ i, i < m.num_patterns →
    (m.regex_entries i).compiled = true ∧ (m.regex_entries i).prog.isSome = true

/-! ## Debouncer / Dispatcher: the event loop of monitor_directory

Models of monitor_directory (src/ggyl.c lines 199-278).  One iteration of
the outer while loop is a cycle: an outer select with a one second timeout,
then on readiness an unconditional read that consumes the pending
notifications without inspecting them, then the inner drain loop.  Each
inner iteration is a select with a twenty millisecond timeout followed by an
unconditional read of the inotify buffer; only the first event of the
buffer is inspected.  The environment (which select results occur and which
events the reads return) is passed in as a list of stimuli. -/

/-- Linux inotify mask bits used by ggyl (values from sys/inotify.h). -/
def IN_MODIFY : Nat := 2

/-- Linux inotify creation bit. -/
def IN_CREATE : Nat := 256

/-- Linux inotify deletion bit. -/
def IN_DELETE : Nat := 512

/-- Linux inotify moved-from bit. -/
def IN_MOVED_FROM : Nat := 64

/-- Linux inotify moved-to bit. -/
def IN_MOVED_TO : Nat := 128

/-- Linux inotify move bits, the union of moved-from and moved-to. -/
def IN_MOVE : Nat := IN_MOVED_FROM ||| IN_MOVED_TO

/-- Linux inotify directory flag. -/
def IN_ISDIR : Nat := 1073741824

/-- One inotify_event record as read off the notification buffer: the mask,
the length field (zero when the event carries no name) and the name. -/
structure InEvent where
  mask : Nat
  len : Nat
  name : List Char
deriving DecidableEq

/-- Structural-event test of src/ggyl.c lines 253-255: the is-directory
flag together with create, delete or move. -/
def isStructuralEvent (e : InEvent) : Bool :=
  (e.mask &&& IN_ISDIR != 0) &&
    ((e.mask &&& IN_CREATE != 0) || (e.mask &&& IN_DELETE != 0) ||
      (e.mask &&& IN_MOVE != 0))

/-- Modify-event test of src/ggyl.c line 267. -/
def isModifyEvent (e : InEvent) : Bool :=
  e.mask &&& IN_MODIFY != 0

/-- Stimulus for one iteration of the inner drain loop.  selErr: the
bounded select fails.  selReady: the bounded select reports data and the
read returns a buffer whose first event is e.  selTimeoutThen: the bounded
select times out with nothing pending (ret equals zero, a case the code
does not test), so the unconditional read at src/ggyl.c line 246 blocks
until an event eventually arrives, and e is that event. -/
inductive InnerStim where
  | selErr : InnerStim
  | selReady (e : InEvent) : InnerStim
  | selTimeoutThen (e : InEvent) : InnerStim
deriving DecidableEq

/-- Event carried by a stimulus, if any. -/
def InnerStim.event? : InnerStim → Option InEvent
  | .selErr => none
  | .selReady e => some e
  | .selTimeoutThen e => some e

/-- How one pass of the inner drain loop ended.  rebuild: the structural
branch ran (tree rebuilt, command executed) and broke out.  runCommand: the
modify branch matched a pattern, the command executed, and the loop broke
out.  selectError: the bounded select failed, the diagnostic was printed
and the loop broke out.  blockedForever: the stimuli ran out with the loop
still inside a blocking read, so the pass never ends. -/
inductive DrainExit where
  | rebuild : DrainExit
  | runCommand : DrainExit
  | selectError : DrainExit
  | blockedForever : DrainExit
deriving DecidableEq

/-- Result of one pass of the inner drain loop: how it ended, how many
times system(mon->cmd) ran, and how many times the watch tree was torn
down and rebuilt. -/
structure DrainResult where
  exit : DrainExit
  cmdRuns : Nat
  rebuilds : Nat
deriving DecidableEq

/-- Inner drain loop of monitor_directory (src/ggyl.c lines 231-275).  A
select failure prints a diagnostic and breaks out.  Otherwise the read
yields an event; an event with a nonzero length field that is structural
rebuilds the watch tree, runs the command and breaks out; else a modify
event whose name matches the patterns runs the command and breaks out; any
other event is ignored and the loop continues.  A select timeout is not
tested for, so its stimulus is processed exactly like a ready one (the
read blocks until the event arrives). -/
def drainLoop (m : MonitorP) : List InnerStim → DrainResult
  | [] => ⟨.blockedForever, 0, 0⟩
  | stim :: rest =>
    match stim.event? with
    | none => ⟨.selectError, 0, 0⟩
    | some e =>
      if e.len != 0 && isStructuralEvent e then ⟨.rebuild, 1, 1⟩
      else if e.len != 0 && (isModifyEvent e && check_patterns m e.name) then
        ⟨.runCommand, 1, 0⟩
      else drainLoop m rest

/-- Stimulus for one iteration of the outer while loop.  oselErr: the outer
select fails.  oselTimeout: the outer select times out (ret equals zero)
and the loop starts over.  oselReady: the outer select reports data; the
unconditional read at src/ggyl.c line 229 consumes the pending
notifications firstRead without inspecting them, and the inner drain loop
then runs on the stimuli burst. -/
inductive OuterStim where
  | oselErr : OuterStim
  | oselTimeout : OuterStim
  | oselReady (firstRead : List InEvent) (burst : List InnerStim) : OuterStim

/-- Outcome of one cycle of the outer loop.  fatalExit: the process printed
a diagnostic and called exit(EXIT_FAILURE).  idleAgain: control returned to
the top of the outer loop (carrying the drain result when a drain ran).
stuck: the drain loop is blocked in a read and the cycle never completes. -/
inductive CycleRes where
  | fatalExit : CycleRes
  | idleAgain (drained : Option DrainResult) : CycleRes
  | stuck (r : DrainResult) : CycleRes
deriving DecidableEq

/-- One cycle of the outer loop of monitor_directory (src/ggyl.c lines
204-277): a failure of the outer select is fatal (lines 218-223); a timeout
loops; readiness consumes the pending notifications unread and runs the
drain loop, whose break returns control to the top of the outer loop. -/
def monitorCycle (m : MonitorP) : OuterStim → CycleRes
  | .oselErr => .fatalExit
  | .oselTimeout => .idleAgain none
  | .oselReady _ burst =>
    let r := drainLoop m burst
    if r.exit = DrainExit.blockedForever then .stuck r else .idleAgain (some r)

/-- Stimulus that the drain loop processes without acting on it: it must
carry an event (a select failure breaks the loop), and the event must have
length zero or be neither structural nor a pattern-matching modify. -/
def stimSkipped (m : MonitorP) (s : InnerStim) : Bool :=
  match s.event? with
  | none => false
  | some e =>
    !(e.len != 0 && isStructuralEvent e) &&
      !(e.len != 0 && (isModifyEvent e && check_patterns m e.name))

/-! ## WatchTree construction

Model of build_watch_tree (src/ggyl.c lines 130-193).  The directory
hierarchy is a rose tree of directories; regular files are irrelevant to
the build (the dirent type test at line 175 skips them) and are omitted.
A recursive visit opens the directory, creates one node, registers one
inotify watch (modelled by consuming one watch descriptor from a counter),
and recurses into every subdirectory entry whose name does not start with a
dot, in directory-read order. -/

/-- Directory in the watched hierarchy: its entry name and its
subdirectories in directory-read order. -/
inductive FsDir where
  | mk (name : List Char) (subs : List FsDir)

/-- Name of a directory entry. -/
def FsDir.name : FsDir → List Char
  | .mk n _ => n

/-- Hidden-entry test of src/ggyl.c line 177: the first character of the
entry name is a dot (this also skips the current and parent directory
entries). -/
def isHiddenName : List Char → Bool
  | [] => false
  | c :: _ => c = '.'

/-- Node of the watch-descriptor tree (node_t in src/ggyl.h): the watch
descriptor stored as the node data, and the child nodes owned by the
parent. -/
inductive WNode where
  | mk (wd : Nat) (children : List WNode)

mutual

/-- build_watch_tree (src/ggyl.c lines 130-193) on one directory: create a
node, register a watch for the directory (taking the next watch
descriptor w), then recurse into the non-hidden subdirectory entries in
order.  Returns the built node and the next free watch descriptor. -/
def build_watch_tree (d : FsDir) (w : Nat) : WNode × Nat :=
  match d with
  | .mk _ subs =>
    let p := buildKids subs (w + 1)
    (WNode.mk w p.1, p.2)

/-- Loop over the readdir entries of one directory (src/ggyl.c lines
174-187): hidden entries are skipped, every other subdirectory is built
recursively and its node appended to the children. -/
def buildKids (ds : List FsDir) (w : Nat) : List WNode × Nat :=
  match ds with
  | [] => ([], w)
  | d :: rest =>
    if isHiddenName d.name then buildKids rest w
    else
      let p := build_watch_tree d w
      let q := buildKids rest p.2
      (p.1 :: q.1, q.2)

end

mutual

/-- Number of nodes of a watch tree. -/
def countNodes : WNode → Nat
  | .mk _ cs => 1 + countKidsNodes cs

/-- Number of nodes of a forest of watch trees. -/
def countKidsNodes : List WNode → Nat
  | [] => 0
  | n :: ns => countNodes n + countKidsNodes ns

end

mutual

/-- Number of directories of the hierarchy that the build visits: the
directory itself plus its non-hidden subdirectories, recursively. -/
def visibleCount : FsDir → Nat
  | .mk _ subs => 1 + visList subs

/-- Visited directories of a list of sibling entries. -/
def visList : List FsDir → Nat
  | [] => 0
  | d :: ds => (if isHiddenName d.name then 0 else visibleCount d) + visList ds

end

mutual

/-- Total number of directories of the hierarchy, hidden ones included. -/
def totalDirs : FsDir → Nat
  | .mk _ subs => 1 + totalKids subs

/-- Total directories of a list of sibling entries. -/
def totalKids : List FsDir → Nat
  | [] => 0
  | d :: ds => totalDirs d + totalKids ds

end

/-! ## Tree teardown and the heap

Models of the free_tree macro (src/ggyl.h lines 678-689) and _free_nodes
(src/ggyl.h lines 467-482).  The heap is the list of live malloc block
identifiers; free removes a live block and faults (returns none: a double
free or invalid free, undefined behaviour in C) on a dead one.  Each tree
node owns three kinds of blocks: the block free_data releases for the node
data, the children pointer array when the node has children, and the node_t
block itself; the tree_t struct is one more block. -/

/-- Heap state: the identifiers of the currently allocated blocks. -/
structure Heap where
  alive : List Nat
deriving DecidableEq

/-- Free one block: remove it from the heap if it is live, fault
otherwise. -/
def freeBlock (h : Heap) (b : Nat) : Option Heap :=
  if b ∈ h.alive then some ⟨h.alive.erase b⟩ else none

/-- Free a sequence of blocks in order, faulting as soon as one of them is
not live. -/
def freeBlocks : Heap → List Nat → Option Heap
  | h, [] => some h
  | h, b :: bs =>
    match freeBlock h b with
    | none => none
    | some h2 => freeBlocks h2 bs

/-- Node of the container tree as laid out in memory: the block its data
pointer refers to, the children array block when the children pointer is
not null, the node_t block itself, and the child nodes. -/
inductive MNode where
  | mk (dataBlock : Nat) (arrBlock : Option Nat) (nodeBlock : Nat)
       (children : List MNode)

mutual

/-- Blocks freed by _free_nodes (src/ggyl.h lines 467-482) for one node, in
order: each child recursively, then the children array if the children
pointer is not null, then the data block (free_data on node->data), then
the node_t block. -/
def nodeBlocks : MNode → List Nat
  | .mk dataB arrB nodeB cs =>
    childBlocks cs ++ (match arrB with | none => [] | some a => [a]) ++
      [dataB, nodeB]

/-- Blocks freed for a list of child nodes, left to right. -/
def childBlocks : List MNode → List Nat
  | [] => []
  | n :: ns => nodeBlocks n ++ childBlocks ns

end

/-- Tree object (tree_t in src/ggyl.h): the block of the tree_t struct and
the root node, none when the tree is empty. -/
structure MTree where
  treeBlock : Nat
  root : Option MNode

/-- Blocks the free_tree macro releases for a non-null tree, in order: the
nodes (when the root is not null) and then the tree_t struct itself. -/
def treeBlocks (t : MTree) : List Nat :=
  (match t.root with | none => [] | some n => nodeBlocks n) ++ [t.treeBlock]

/-- free_tree macro (src/ggyl.h lines 678-689): a null tree pointer only
prints a diagnostic and frees nothing; otherwise free_nodes runs on a
non-null root and the tree_t struct is freed. -/
def free_tree (h : Heap) : Option MTree → Option Heap
  | none => some h
  | some t => freeBlocks h (treeBlocks t)

/-- Two consecutive teardown calls on the same non-null tree pointer, as
they would run if the caller does not replace the pointer in between (the
monitor stores the dangling pointer until the next build). -/
def freeTreeTwice (h : Heap) (t : MTree) : Option Heap :=
  match free_tree h (some t) with
  | none => none
  | some h2 => free_tree h2 (some t)

/-! ## Concrete fixtures used by the witnesses and counterexamples -/

/-- Compiled pattern of the glob star-dot-c: one alternative, anchored on
both sides. -/
def reStarDotC : List RBranch :=
  [⟨true, true, [.star .any, .once (.lit '.'), .once (.lit 'c')]⟩]

/-- Monitor whose pattern set holds the single compiled glob star-dot-c. -/
def monStarC : MonitorP :=
  ⟨fun j => if j = 0 then ⟨true, some reStarDotC⟩ else ⟨false, none⟩, 1⟩

/-- Modify notification for the file a-dot-c; its name matches the
pattern. -/
def evModifyC : InEvent := ⟨IN_MODIFY, 4, ['a', '.', 'c']⟩

/-- Modify notification for the file b-dot-md; no pattern matches. -/
def evModifyMd : InEvent := ⟨IN_MODIFY, 5, ['b', '.', 'm', 'd']⟩

/-- Creation of a subdirectory named sub: a structural notification. -/
def evMkdirSub : InEvent := ⟨IN_CREATE ||| IN_ISDIR, 4, ['s', 'u', 'b']⟩

/-- Hierarchy with one hidden subdirectory: two directories in total. -/
def fsWithHidden : FsDir := .mk ['r'] [.mk ['.', 'g'] []]

/-! ## Theorems: PatternMatcher -/

/-- Unfolding of gtrBody at a star. -/
theorem gtrBody_star (gs : List Char) :
    gtrBody ('*' :: gs) = '.' :: '*' :: gtrBody gs := by simp [gtrBody]

/-- Unfolding of gtrBody at a question mark. -/
theorem gtrBody_quest (gs : List Char) :
    gtrBody ('?' :: gs) = '.' :: gtrBody gs := by simp [gtrBody]

/-- Unfolding of gtrBody at a dot. -/
theorem gtrBody_dot (gs : List Char) :
    gtrBody ('.' :: gs) = '\\' :: '.' :: gtrBody gs := by simp [gtrBody]

/-- Unfolding of gtrBody at a plain character. -/
theorem gtrBody_lit (c : Char) (gs : List Char) (h1 : c ≠ '*') (h2 : c ≠ '?')
    (h3 : c ≠ '.') : gtrBody (c :: gs) = c :: gtrBody gs := by
  simp [gtrBody, h1, h2, h3]

/-- Unfolding of toksOf at a star. -/
theorem toksOf_star (gs : List Char) :
    toksOf ('*' :: gs) = .atom .any :: .star :: toksOf gs := by simp [toksOf]

/-- Unfolding of toksOf at a question mark. -/
theorem toksOf_quest (gs : List Char) :
    toksOf ('?' :: gs) = .atom .any :: toksOf gs := by simp [toksOf]

/-- Unfolding of toksOf at a dot. -/
theorem toksOf_dot (gs : List Char) :
    toksOf ('.' :: gs) = .atom (.lit '.') :: toksOf gs := by simp [toksOf]

/-- Unfolding of toksOf at a plain character. -/
theorem toksOf_lit (c : Char) (gs : List Char) (h1 : c ≠ '*') (h2 : c ≠ '?')
    (h3 : c ≠ '.') : toksOf (c :: gs) = .atom (.lit c) :: toksOf gs := by
  simp [toksOf, h1, h2, h3]

/-- Unfolding of piecesOf at a star. -/
theorem piecesOf_star (gs : List Char) :
    piecesOf ('*' :: gs) = .star .any :: piecesOf gs := by simp [piecesOf]

/-- Unfolding of piecesOf at a question mark. -/
theorem piecesOf_quest (gs : List Char) :
    piecesOf ('?' :: gs) = .once .any :: piecesOf gs := by simp [piecesOf]

/-- Unfolding of piecesOf at a dot. -/
theorem piecesOf_dot (gs : List Char) :
    piecesOf ('.' :: gs) = .once (.lit '.') :: piecesOf gs := by
  simp [piecesOf]

/-- Unfolding of piecesOf at a plain character. -/
theorem piecesOf_lit (c : Char) (gs : List Char) (h1 : c ≠ '*') (h2 : c ≠ '?')
    (h3 : c ≠ '.') : piecesOf (c :: gs) = .once (.lit c) :: piecesOf gs := by
  simp [piecesOf, h1, h2, h3]

/-- Unfolding of tokenize at an unescaped character. -/
theorem tokenize_cons (c : Char) (rest : List Char) (h : c ≠ '\\') :
    tokenize (c :: rest) = tokChar c :: tokenize rest := by
  simp [tokenize, h]

/-- Unfolding of tokenize at an escape. -/
theorem tokenize_escape (d : Char) (rest : List Char) :
    tokenize ('\\' :: d :: rest) = RTok.atom (.lit d) :: tokenize rest := by
  simp [tokenize]

/-- Helper: a character that is safe for claim C4 but is not one of the
three glob wildcards is not special in an ERE. -/
theorem globSafe_not_special (c : Char) (hc : globSafe c = true)
    (h1 : c ≠ '*') (h2 : c ≠ '?') (h3 : c ≠ '.') : ereSpecial c = false := by
  simp only [globSafe, Bool.or_eq_true, decide_eq_true_eq,
    Bool.not_eq_true'] at hc
  tauto

/-- Helper: a character that is not ERE-special scans to a literal atom
and is not the escape character. -/
theorem not_special_tokChar (c : Char) (h : ereSpecial c = false) :
    tokChar c = RTok.atom (.lit c) ∧ c ≠ '\\' := by
  simp only [ereSpecial, Bool.or_eq_false_iff, decide_eq_false_iff_not] at h
  have hdol : ¬c = '$' := by tauto
  have hbar : ¬c = '|' := by tauto
  have hstar : ¬c = '*' := by tauto
  have hplus : ¬c = '+' := by tauto
  have hq : ¬c = '?' := by tauto
  have hdot : ¬c = '.' := by tauto
  have hbs : ¬c = '\\' := by tauto
  have hum : unmodeledERE c = false := by
    simp only [unmodeledERE, Bool.or_eq_false_iff, decide_eq_false_iff_not]
    tauto
  exact ⟨by simp [tokChar, hdol, hbar, hstar, hplus, hq, hdot, hbs, hum], hbs⟩

/-- Helper: scanning the emitted regex of a covered glob yields the
expected token stream. -/
theorem tokenize_gtr (g : List Char) (h : ∀ c ∈ g, globSafe c = true) :
    tokenize (gtrBody g ++ ['$']) = toksOf g ++ [RTok.dollar] := by
  induction g with
  | nil => rfl
  | cons c gs ih =>
    have hc : globSafe c = true := h c (List.mem_cons_self c gs)
    have hgs : ∀ x ∈ gs, globSafe x = true :=
      fun x hx => h x (List.mem_cons_of_mem c hx)
    have ih2 := ih hgs
    by_cases h1 : c = '*'
    · subst h1
      rw [gtrBody_star, toksOf_star, List.cons_append, List.cons_append,
        tokenize_cons '.' _ (by decide), tokenize_cons '*' _ (by decide), ih2]
      rfl
    · by_cases h2 : c = '?'
      · subst h2
        rw [gtrBody_quest, toksOf_quest, List.cons_append,
          tokenize_cons '.' _ (by decide), ih2]
        rfl
      · by_cases h3 : c = '.'
        · subst h3
          rw [gtrBody_dot, toksOf_dot, List.cons_append, List.cons_append,
            tokenize_escape, ih2]
          rfl
        · have hsp : ereSpecial c = false := globSafe_not_special c hc h1 h2 h3
          obtain ⟨htc, hbs⟩ := not_special_tokChar c hsp
          rw [gtrBody_lit c gs h1 h2 h3, toksOf_lit c gs h1 h2 h3,
            List.cons_append, tokenize_cons c _ hbs, htc, ih2]
          rfl

/-- Helper: the token stream of a covered glob (followed by the end
anchor) never starts with a repetition operator, because every repetition
emitted follows an atom. -/
theorem toksOf_head_not_quant (g : List Char) (t : RTok) (ts : List RTok)
    (h : toksOf g ++ [RTok.dollar] = t :: ts) :
    t ≠ RTok.star ∧ t ≠ RTok.plus ∧ t ≠ RTok.quest := by
  cases g with
  | nil =>
    simp only [toksOf, List.nil_append, List.cons.injEq] at h
    rw [← h.1]
    exact ⟨by decide, by decide, by decide⟩
  | cons c gs =>
    simp only [toksOf] at h
    split_ifs at h <;>
        simp only [List.cons_append, List.cons.injEq] at h <;>
        rw [← h.1] <;>
      exact ⟨by simp, by simp, by simp⟩

/-- Unfolding of parseToks at an atom not followed by a repetition
operator. -/
theorem parseToks_atom_noquant (a : Bool) (x : RAtom) (t : RTok)
    (ts : List RTok) (h1 : t ≠ RTok.star) (h2 : t ≠ RTok.plus)
    (h3 : t ≠ RTok.quest) :
    parseToks a (.atom x :: t :: ts) =
      consPiece (.once x) (parseToks a (t :: ts)) := by
  cases t <;> simp [parseToks] <;> simp_all

/-- Helper: parsing the token stream of a covered glob succeeds with one
alternative, anchored on both sides, holding the expected pieces. -/
theorem parseToks_gtr (g : List Char) : ∀ a : Bool,
    parseToks a (toksOf g ++ [RTok.dollar]) = some [⟨a, true, piecesOf g⟩] := by
  induction g with
  | nil => intro a; rfl
  | cons c gs ih =>
    intro a
    by_cases h1 : c = '*'
    · subst h1
      rw [toksOf_star, piecesOf_star, List.cons_append, List.cons_append]
      simp only [parseToks]
      rw [ih a]
      rfl
    · by_cases h2 : c = '?'
      · subst h2
        rw [toksOf_quest, piecesOf_quest, List.cons_append]
        rcases hsplit : toksOf gs ++ [RTok.dollar] with _ | ⟨t, ts⟩
        · simp at hsplit
        · obtain ⟨ht1, ht2, ht3⟩ := toksOf_head_not_quant gs t ts hsplit
          rw [parseToks_atom_noquant a _ t ts ht1 ht2 ht3, ← hsplit, ih a]
          rfl
      · by_cases h3 : c = '.'
        · subst h3
          rw [toksOf_dot, piecesOf_dot, List.cons_append]
          rcases hsplit : toksOf gs ++ [RTok.dollar] with _ | ⟨t, ts⟩
          · simp at hsplit
          · obtain ⟨ht1, ht2, ht3⟩ := toksOf_head_not_quant gs t ts hsplit
            rw [parseToks_atom_noquant a _ t ts ht1 ht2 ht3, ← hsplit, ih a]
            rfl
        · rw [toksOf_lit c gs h1 h2 h3, piecesOf_lit c gs h1 h2 h3,
            List.cons_append]
          rcases hsplit : toksOf gs ++ [RTok.dollar] with _ | ⟨t, ts⟩
          · simp at hsplit
          · obtain ⟨ht1, ht2, ht3⟩ := toksOf_head_not_quant gs t ts hsplit
            rw [parseToks_atom_noquant a _ t ts ht1 ht2 ht3, ← hsplit, ih a]
            rfl

/-- Helper: testing a property of the suffix over every prefix-suffix
split is testing it over every suffix. -/
theorem splits_any_snd (f : List Char → Bool) :
    ∀ s : List Char, (splits s).any (fun p => f p.2) = s.tails.any f := by
  intro s
  induction s with
  | nil => rfl
  | cons c cs ih =>
    simp only [splits, List.any_cons, List.any_map, List.tails_cons]
    rw [← ih]
    rfl

/-- Helper: matching the compiled pieces of a covered glob is shell glob
matching. -/
theorem piecesMatch_piecesOf (g : List Char) :
    ∀ s, piecesMatch (piecesOf g) s = globMatch g s := by
  induction g with
  | nil => intro s; rfl
  | cons c gs ih =>
    intro s
    by_cases h1 : c = '*'
    · subst h1
      rw [piecesOf_star]
      have hall : ∀ p : List Char × List Char,
          p.1.all (atomMatch RAtom.any) = true := by
        intro p
        simp [atomMatch]
      simp only [piecesMatch, globMatch, if_pos rfl, hall, Bool.true_and]
      rw [splits_any_snd (piecesMatch (piecesOf gs)) s,
        show piecesMatch (piecesOf gs) = fun t => globMatch gs t from funext ih]
      simp
    · by_cases h2 : c = '?'
      · subst h2
        rw [piecesOf_quest]
        cases s <;> simp [piecesMatch, globMatch, atomMatch, ih]
      · by_cases h3 : c = '.'
        · subst h3
          rw [piecesOf_dot]
          cases s <;> simp [piecesMatch, globMatch, atomMatch, ih]
        · rw [piecesOf_lit c gs h1 h2 h3]
          cases s <;> simp [piecesMatch, globMatch, atomMatch, h1, h2, ih]

/-- C4 amended: for every glob built from star, question mark, dot and
characters that are literal in an extended regex as well (not ERE
metacharacters), compiling the emitted anchored regex succeeds with a
single both-anchored alternative and the compiled pattern matches a
filename exactly when the shell glob matches it, anchored to the full
filename, with no partial-match false positives.  A glob containing an ERE
metacharacter is copied verbatim and the compiled pattern takes the regex
meaning, which diverges from the shell glob. -/
theorem glob_to_regex_correct (g s : List Char) (h : ∀ c ∈ g, globSafe c = true) :
    (regcompModel (glob_to_regex g)).map (fun re => regexecRun re s) =
      some (globMatch g s) := by
  have h1 : regcompModel (glob_to_regex g) =
      parseToks true (tokenize (gtrBody g ++ ['$'])) := rfl
  rw [h1, tokenize_gtr g h, parseToks_gtr g true]
  simp [regexecRun, branchMatches, piecesMatch_piecesOf]

/-- Witness for C4 amended: the glob star-dot-c is in the covered
fragment, and at the filename file-dot-cpp the compiled pattern and the
shell glob agree (both reject: no partial-match false positive). -/
theorem glob_to_regex_correct_witness :
    (∀ c ∈ ['*', '.', 'c'], globSafe c = true) ∧
    (regcompModel (glob_to_regex ['*', '.', 'c'])).map
        (fun re => regexecRun re ['f', 'i', 'l', 'e', '.', 'c', 'p', 'p']) =
      some (globMatch ['*', '.', 'c'] ['f', 'i', 'l', 'e', '.', 'c', 'p', 'p']) :=
  ⟨by decide, glob_to_regex_correct ['*', '.', 'c']
    ['f', 'i', 'l', 'e', '.', 'c', 'p', 'p'] (by decide)⟩

/-- C4 counterexample: the glob a-plus consists of characters that are
literal in glob syntax, yet its translation compiles (regcomp accepts
caret-a-plus-dollar) to a pattern where the plus is a repetition operator:
the compiled pattern matches the filename a-a, which the shell glob does
not match, and does not match the filename a-plus, which the shell glob
does match.  Likewise the glob a-bar-b compiles to an alternation whose
first alternative is only start-anchored, so the compiled pattern matches
the filename a-x, which the shell glob does not match. -/
theorem glob_plus_divergence_cex :
    (regcompModel (glob_to_regex ['a', '+'])).map
        (fun re => regexecRun re ['a', 'a']) = some true ∧
    globMatch ['a', '+'] ['a', 'a'] = false ∧
    (regcompModel (glob_to_regex ['a', '+'])).map
        (fun re => regexecRun re ['a', '+']) = some false ∧
    globMatch ['a', '+'] ['a', '+'] = true ∧
    (regcompModel (glob_to_regex ['a', '|', 'b'])).map
        (fun re => regexecRun re ['a', 'x']) = some true ∧
    globMatch ['a', '|', 'b'] ['a', 'x'] = false := by decide

/-- C5 (confirmed): with an empty pattern set, check_patterns returns true
for every filename: the loop never runs and the match-everything rule
fires. -/
theorem check_patterns_empty (m : MonitorP) (f : List Char)
    (h : m.num_patterns = 0) : check_patterns m f = true := by
  simp [check_patterns, h, checkLoop]

/-- Witness for C5: a concrete empty pattern set matches a concrete
filename. -/
theorem check_patterns_empty_witness :
    check_patterns ⟨fun _ => ⟨false, none⟩, 0⟩ ['a'] = true :=
  check_patterns_empty ⟨fun _ => ⟨false, none⟩, 0⟩ ['a'] rfl

/-- Helper: one compile_patterns call preserves the invariant that every
slot below num_patterns is compiled: a failed compile writes only the slot
at num_patterns and does not increment the count, a successful one stores a
compiled entry in that slot and increments. -/
theorem compile_patterns_invariant (m : MonitorP) (g : List Char)
    (hm : patInvariant m) : patInvariant (compile_patterns m g) := by
  unfold compile_patterns
  split_ifs with hcap
  · exact hm
  · cases hp : regcompModel (glob_to_regex g) with
    | none =>
      intro i hi
      simp only at hi
      have hne : i ≠ m.num_patterns := Nat.ne_of_lt hi
      simpa [hne] using hm i hi
    | some p =>
      intro i hi
      simp only at hi
      rcases Nat.lt_succ_iff_lt_or_eq.mp hi with hlt | heq
      · have hne : i ≠ m.num_patterns := Nat.ne_of_lt hlt
        simpa [hne] using hm i hlt
      · subst heq; simp

/-- C10 (confirmed): after any sequence of compile_patterns calls starting
from a fresh monitor (num_patterns zero, arbitrary garbage in the slots),
every slot below num_patterns is marked compiled and holds a program: a
glob that fails to compile is discarded without incrementing the count, so
check_patterns never consults a failed entry. -/
theorem compile_patterns_fold_invariant (entries0 : Nat → RegexEntry)
    (globs : List (List Char)) :
    patInvariant (globs.foldl compile_patterns ⟨entries0, 0⟩) := by
  have hgen : ∀ (gs : List (List Char)) (m : MonitorP), patInvariant m →
      patInvariant (gs.foldl compile_patterns m) := by
    intro gs
    induction gs with
    | nil => exact fun m hm => hm
    | cons g gs2 ih => exact fun m hm => ih _ (compile_patterns_invariant m g hm)
  exact hgen globs _ (by intro i hi; simp at hi)

/-! ## Theorems: Debouncer / Dispatcher -/

/-- C1 counterexample: a burst that contains a structural notification does
not always end in Rebuild.  Here a pattern-matching modify notification is
drained first, so the pass ends in RunCommand and the structural
notification is left unprocessed. -/
theorem structural_after_match_cex :
    isStructuralEvent evMkdirSub = true ∧
    check_patterns monStarC evModifyC.name = true ∧
    drainLoop monStarC
        [InnerStim.selReady evModifyC, InnerStim.selReady evMkdirSub] =
      ⟨DrainExit.runCommand, 1, 0⟩ := by decide

/-- C1 amended: if the first action-triggering notification that the drain
loop processes is structural (every earlier stimulus in the burst is
skipped: carries an event and triggers neither branch), the outcome of the
burst is Rebuild, never RunCommand, wherever the structural notification
sits relative to the skipped ones and whatever follows it. -/
theorem burst_structural_first_rebuild (m : MonitorP)
    (pre post : List InnerStim) (e : InEvent)
    (hpre : ∀ s ∈ pre, stimSkipped m s = true)
    (hlen : e.len ≠ 0) (hstruct : isStructuralEvent e = true) :
    drainLoop m (pre ++ InnerStim.selReady e :: post) =
      ⟨DrainExit.rebuild, 1, 1⟩ := by
  induction pre with
  | nil =>
    have hl : (e.len != 0) = true := by simpa using hlen
    simp [drainLoop, InnerStim.event?, hl, hstruct]
  | cons s pre2 ih =>
    have hs := hpre s (List.mem_cons_self s pre2)
    have hrest : ∀ x ∈ pre2, stimSkipped m x = true :=
      fun x hx => hpre x (List.mem_cons_of_mem s hx)
    cases hse : s.event? with
    | none => simp [stimSkipped, hse] at hs
    | some e2 =>
      simp only [stimSkipped, hse, Bool.and_eq_true, Bool.not_eq_true'] at hs
      simp [drainLoop, hse, hs.1, hs.2, ih hrest]

/-- Witness for C1 amended: a non-matching modify is drained first, then
the structural notification; the outcome is Rebuild. -/
theorem burst_structural_first_rebuild_witness :
    (∀ s ∈ [InnerStim.selReady evModifyMd], stimSkipped monStarC s = true) ∧
    evMkdirSub.len ≠ 0 ∧ isStructuralEvent evMkdirSub = true ∧
    drainLoop monStarC ([InnerStim.selReady evModifyMd] ++
        InnerStim.selReady evMkdirSub :: [InnerStim.selReady evModifyC]) =
      ⟨DrainExit.rebuild, 1, 1⟩ :=
  ⟨by decide, by decide, by decide,
    burst_structural_first_rebuild monStarC [InnerStim.selReady evModifyMd]
      [InnerStim.selReady evModifyC] evMkdirSub (by decide) (by decide)
      (by decide)⟩

/-- C2 counterexample: a burst of one matching modify notification does not
execute the command exactly once.  The notification is consumed by the
unconditional initial read before the drain loop inspects anything, the
drain loop then has nothing to process, the command runs zero times, and
the pass blocks inside the unchecked read. -/
theorem single_modify_burst_cex :
    isModifyEvent evModifyC = true ∧
    check_patterns monStarC evModifyC.name = true ∧
    monitorCycle monStarC (.oselReady [evModifyC] []) =
      CycleRes.stuck ⟨DrainExit.blockedForever, 0, 0⟩ := by decide

/-- C2 amended: at most one action fires per drain pass (the command runs
at most once and the tree is rebuilt at most once), and whenever the drain
loop processes a nonempty burst consisting of pattern-matching modify
notifications, the command executes exactly once for that burst. -/
theorem burst_single_action (m : MonitorP) :
    (∀ stims : List InnerStim,
      (drainLoop m stims).cmdRuns ≤ 1 ∧ (drainLoop m stims).rebuilds ≤ 1) ∧
    (∀ es : List InEvent, es ≠ [] →
      (∀ e ∈ es, e.len ≠ 0 ∧ isStructuralEvent e = false ∧
        isModifyEvent e = true ∧ check_patterns m e.name = true) →
      drainLoop m (es.map InnerStim.selReady) =
        ⟨DrainExit.runCommand, 1, 0⟩) := by
  constructor
  · intro stims
    induction stims with
    | nil => simp [drainLoop]
    | cons s rest ih =>
      cases hse : s.event? with
      | none => simp [drainLoop, hse]
      | some e =>
        by_cases hA : (e.len != 0 && isStructuralEvent e) = true
        · simp [drainLoop, hse, hA]
        · by_cases hB :
              (e.len != 0 && (isModifyEvent e && check_patterns m e.name)) = true
          · simp [drainLoop, hse, hA, hB]
          · simpa [drainLoop, hse, hA, hB] using ih
  · intro es hne hall
    cases es with
    | nil => exact absurd rfl hne
    | cons e es2 =>
      obtain ⟨hl, hs, hm2, hcp⟩ := hall e (List.mem_cons_self e es2)
      have hl2 : (e.len != 0) = true := by simpa using hl
      simp [drainLoop, InnerStim.event?, hl2, hs, hm2, hcp]

/-- Witness for C2 amended: a drained burst of two matching modify
notifications runs the command exactly once. -/
theorem burst_single_action_witness :
    drainLoop monStarC ([evModifyC, evModifyC].map InnerStim.selReady) =
      ⟨DrainExit.runCommand, 1, 0⟩ :=
  (burst_single_action monStarC).2 [evModifyC, evModifyC] (by decide) (by decide)

/-- C3 at the failing input: when the bounded wait times out with nothing
pending, the drain loop does not exit.  With no later notification the pass
blocks forever inside the unchecked read; a non-matching notification that
arrives only after the window is still consumed by the same pass; a
matching one triggers the command from inside the supposedly ended drain.
There is no Discard exit on timeout at all. -/
theorem drain_timeout_blocks :
    drainLoop monStarC [] = ⟨DrainExit.blockedForever, 0, 0⟩ ∧
    drainLoop monStarC [InnerStim.selTimeoutThen evModifyMd] =
      ⟨DrainExit.blockedForever, 0, 0⟩ ∧
    drainLoop monStarC [InnerStim.selTimeoutThen evModifyC] =
      ⟨DrainExit.runCommand, 1, 0⟩ := by decide

/-- C8 counterexample: a failure of the bounded wait inside the drain loop
is not fatal: the cycle prints the diagnostic, breaks out of the drain and
returns to the Idle wait instead of exiting the process. -/
theorem drain_select_error_cex :
    monitorCycle monStarC (.oselReady [] [InnerStim.selErr]) =
      CycleRes.idleAgain (some ⟨DrainExit.selectError, 0, 0⟩) ∧
    CycleRes.idleAgain (some ⟨DrainExit.selectError, 0, 0⟩) ≠
      CycleRes.fatalExit := by decide

/-- C8 amended: a failure of the Idle (outer, unbounded) multiplexed wait
is fatal: the process prints a diagnostic and exits with failure status.  A
failure of the Draining (bounded) wait prints a diagnostic but only ends
the current drain, returning control to the Idle wait. -/
theorem select_error_split (m : MonitorP) :
    monitorCycle m OuterStim.oselErr = CycleRes.fatalExit ∧
    ∀ (fr : List InEvent) (rest : List InnerStim),
      monitorCycle m (.oselReady fr (InnerStim.selErr :: rest)) =
        CycleRes.idleAgain (some ⟨DrainExit.selectError, 0, 0⟩) := by
  refine ⟨rfl, fun fr rest => ?_⟩
  simp [monitorCycle, drainLoop, InnerStim.event?]

/-- C9 (confirmed): whenever a drain pass ends in Rebuild (a structural
event was classified and the watch tree torn down and rebuilt), the
configured command also ran in that same pass: Rebuild implies a command
run, it is not an alternative to it. -/
theorem rebuild_runs_command (m : MonitorP) (stims : List InnerStim)
    (h : (drainLoop m stims).exit = DrainExit.rebuild) :
    (drainLoop m stims).cmdRuns = 1 ∧ (drainLoop m stims).rebuilds = 1 := by
  induction stims with
  | nil => simp [drainLoop] at h
  | cons s rest ih =>
    cases hse : s.event? with
    | none => simp [drainLoop, hse] at h
    | some e =>
      by_cases hA : (e.len != 0 && isStructuralEvent e) = true
      · simp [drainLoop, hse, hA]
      · by_cases hB :
            (e.len != 0 && (isModifyEvent e && check_patterns m e.name)) = true
        · simp [drainLoop, hse, hA, hB] at h
        · simp only [drainLoop, hse] at h ⊢
          simp only [hA, hB] at h ⊢
          simp at h ⊢
          exact ih h

/-- Witness for C9: the drain pass on one structural notification ends in
Rebuild and ran the command once. -/
theorem rebuild_runs_command_witness :
    (drainLoop monStarC [InnerStim.selReady evMkdirSub]).cmdRuns = 1 ∧
    (drainLoop monStarC [InnerStim.selReady evMkdirSub]).rebuilds = 1 :=
  rebuild_runs_command monStarC [InnerStim.selReady evMkdirSub] (by decide)

/-! ## Theorems: WatchTree construction -/

mutual

/-- Helper: the built tree has one node per visited directory, and the
watch-descriptor counter advances by exactly that number: one watch
registration per node. -/
theorem countNodes_build (d : FsDir) (w : Nat) :
    countNodes (build_watch_tree d w).1 = visibleCount d ∧
    (build_watch_tree d w).2 = w + visibleCount d := by
  match d with
  | .mk n subs =>
    have hk := countKids_build subs (w + 1)
    simp only [build_watch_tree, countNodes, visibleCount]
    exact ⟨by omega, by omega⟩

/-- Helper: the forest built from a list of sibling entries has one node
per visited directory below them, and advances the counter by that
number. -/
theorem countKids_build (ds : List FsDir) (w : Nat) :
    countKidsNodes (buildKids ds w).1 = visList ds ∧
    (buildKids ds w).2 = w + visList ds := by
  match ds with
  | [] => simp [buildKids, countKidsNodes, visList]
  | d :: rest =>
    by_cases hh : isHiddenName d.name = true
    · have hr := countKids_build rest w
      simp only [buildKids, visList, hh, if_true]
      exact ⟨by omega, by omega⟩
    · have hb : isHiddenName d.name = false := by
        revert hh; cases isHiddenName d.name <;> simp
      have hd := countNodes_build d w
      have hr := countKids_build rest (build_watch_tree d w).2
      simp only [buildKids, countKidsNodes, visList, hb, if_false,
        Bool.false_eq_true]
      exact ⟨by omega, by omega⟩

end

/-- C6 amended: over any directory hierarchy the built watch tree contains
exactly one node per directory that the build visits (every directory
reachable from the root through non-hidden entry names; entries whose name
starts with a dot are skipped, as are regular files), with exactly one
watch registration per node; and teardown followed by build on the
unchanged hierarchy yields a tree with the same node count. -/
theorem build_tree_node_count (d : FsDir) (w w2 : Nat) :
    countNodes (build_watch_tree d w).1 = visibleCount d ∧
    (build_watch_tree d w).2 = w + visibleCount d ∧
    countNodes (build_watch_tree d w2).1 =
      countNodes (build_watch_tree d w).1 := by
  have h1 := countNodes_build d w
  have h2 := countNodes_build d w2
  exact ⟨h1.1, h1.2, by rw [h1.1, h2.1]⟩

/-- C6 counterexample: a hierarchy of two directories whose built watch
tree has only one node, because the subdirectory is hidden and the build
skips it: the node count is not the total number of directories F. -/
theorem build_hidden_skipped_cex :
    totalDirs fsWithHidden = 2 ∧
    countNodes (build_watch_tree fsWithHidden 1).1 = 1 := by
  constructor
  · simp [fsWithHidden, totalDirs, totalKids]
  · simp [fsWithHidden, build_watch_tree, buildKids, countNodes,
      countKidsNodes, isHiddenName, FsDir.name]

/-! ## Theorems: tree teardown -/

/-- Helper: freeing a list of distinct live blocks succeeds, keeps the heap
duplicate-free, and removes exactly those blocks. -/
theorem freeBlocks_spec (bs : List Nat) : ∀ h : Heap, h.alive.Nodup →
    bs.Nodup → (∀ b ∈ bs, b ∈ h.alive) →
    ∃ h2, freeBlocks h bs = some h2 ∧ h2.alive.Nodup ∧
      ∀ a, a ∈ h2.alive ↔ (a ∈ h.alive ∧ a ∉ bs) := by
  induction bs with
  | nil => exact fun h hn _ _ => ⟨h, rfl, hn, by simp⟩
  | cons b bs2 ih =>
    intro h hn hnd hall
    have hb : b ∈ h.alive := hall b (List.mem_cons_self b bs2)
    have hnd2 : bs2.Nodup := (List.nodup_cons.mp hnd).2
    have hbnot : b ∉ bs2 := (List.nodup_cons.mp hnd).1
    have hn2 : (h.alive.erase b).Nodup := hn.erase b
    have hall2 : ∀ x ∈ bs2, x ∈ h.alive.erase b := by
      intro x hx
      have hxb : x ≠ b := fun hxb => hbnot (hxb ▸ hx)
      exact (List.mem_erase_of_ne hxb).mpr (hall x (List.mem_cons_of_mem b hx))
    obtain ⟨h2, heq, hn3, hmem⟩ := ih ⟨h.alive.erase b⟩ hn2 hnd2 hall2
    refine ⟨h2, ?_, hn3, ?_⟩
    · simp [freeBlocks, freeBlock, hb, heq]
    · intro a
      rw [hmem a]
      simp only [List.mem_cons]
      constructor
      · rintro ⟨ha, hnb⟩
        have := (List.Nodup.mem_erase_iff hn).mp ha
        exact ⟨this.2, fun hor => hor.elim (fun he => this.1 he) hnb⟩
      · rintro ⟨ha, hnb⟩
        refine ⟨(List.Nodup.mem_erase_iff hn).mpr ⟨fun he => hnb (Or.inl he), ha⟩,
          fun hm => hnb (Or.inr hm)⟩

/-- C7 amended: teardown on a null tree pointer is a no-op (safe and
idempotent); teardown on a live, well-formed tree (all of its blocks
distinct and allocated) succeeds exactly once, and a second teardown of the
same tree double-frees: its first block is already dead and the free
faults.  The pointer must be replaced, as the rebuild path and the signal
handler do, before teardown may run again. -/
theorem free_tree_reuse_unsafe (h h0 : Heap) (t : MTree)
    (hn : h.alive.Nodup) (hnd : (treeBlocks t).Nodup)
    (hall : ∀ b ∈ treeBlocks t, b ∈ h.alive) :
    free_tree h0 none = some h0 ∧
    (free_tree h (some t)).isSome = true ∧
    freeTreeTwice h t = none := by
  obtain ⟨h2, heq, hn2, hmem⟩ := freeBlocks_spec (treeBlocks t) h hn hnd hall
  have hfree : free_tree h (some t) = some h2 := heq
  refine ⟨rfl, by simp [hfree], ?_⟩
  rcases htb : treeBlocks t with _ | ⟨b, bs⟩
  · exfalso
    have : t.treeBlock ∈ treeBlocks t := by
      simp [treeBlocks]
    rw [htb] at this
    simp at this
  · have hbmem : b ∈ treeBlocks t := by
      rw [htb]; exact List.mem_cons_self b bs
    have hbdead : b ∉ h2.alive := fun hc => ((hmem b).mp hc).2 hbmem
    unfold freeTreeTwice
    rw [hfree]
    simp only [free_tree, htb, freeBlocks, freeBlock, hbdead, if_false]

/-- Witness for C7 amended: a concrete one-node tree in a concrete heap;
the first teardown succeeds, the second faults. -/
theorem free_tree_reuse_unsafe_witness :
    free_tree ⟨[5]⟩ none = some ⟨[5]⟩ ∧
    (free_tree ⟨[0, 1, 2, 3]⟩ (some ⟨0, some (MNode.mk 1 none 2 [])⟩)).isSome =
      true ∧
    freeTreeTwice ⟨[0, 1, 2, 3]⟩ ⟨0, some (MNode.mk 1 none 2 [])⟩ = none :=
  free_tree_reuse_unsafe ⟨[0, 1, 2, 3]⟩ ⟨[5]⟩ ⟨0, some (MNode.mk 1 none 2 [])⟩
    (by decide)
    (by simp [treeBlocks, nodeBlocks, childBlocks])
    (by simp [treeBlocks, nodeBlocks, childBlocks])

/-- C7 counterexample: calling teardown twice in a row on the same live
tree faults: the first call frees every block of the tree, so the second
call frees an already-freed block, a double free. -/
theorem free_tree_twice_cex :
    free_tree ⟨[0, 1, 2]⟩ (some ⟨0, some (MNode.mk 1 none 2 [])⟩) =
      some ⟨[]⟩ ∧
    freeTreeTwice ⟨[0, 1, 2]⟩ ⟨0, some (MNode.mk 1 none 2 [])⟩ = none := by
  have ht : treeBlocks ⟨0, some (MNode.mk 1 none 2 [])⟩ = [1, 2, 0] := by
    simp [treeBlocks, nodeBlocks, childBlocks]
  constructor
  · simp only [free_tree, ht]
    decide
  · unfold freeTreeTwice
    simp only [free_tree, ht]
    decide

end GGYL
